import Mathlib

/-!
Shallow embedding of the video-editor remote-control core:
the `Renderer` class (correlation-id RPC over a message channel, event
dispatch, element-tree reconciliation) and the `VideoCreatorStore` that
consumes it. Structured JS payloads are modelled by a JSON-like `Value`
type; JS objects are ordered association lists with unique keys, looked
up by first match.
-/

namespace VideoEditor

/-- A structured message payload: the JSON-like values that cross the
channel (postMessage data, source descriptors, state trees). -/
inductive Value : Type where
  | null : Value
  | bool (b : Bool) : Value
  | num (n : Int) : Value
  | str (s : String) : Value
  | arr (elems : List Value) : Value
  | obj (fields : List (String × Value)) : Value

/-- A JS object: ordered fields, keys unique by construction in JS. -/
abbrev Record := List (String × Value)

/-- Property read: the first field with the given key, as JS objects have
unique keys; a missing key reads as undefined (none). -/
def lookupKey : Record → String → Option Value
  | [], _ => none
  | (k, v) :: rest, key => if k = key then some v else lookupKey rest key

/-- Whether the object has the given key. -/
def hasKey (r : Record) (key : String) : Bool :=
  (lookupKey r key).isSome

/-- Property assignment as in an object literal or spread: an existing key
keeps its position and gets the new value, a new key is appended. -/
def setKey : Record → String → Value → Record
  | [], key, v => [(key, v)]
  | (k, w) :: rest, key, v =>
    if k = key then (key, v) :: rest else (k, w) :: setKey rest key v

/-- Object spread into a base object, as in (...base then fields of extra):
every field of extra is assigned onto base in order. -/
def spreadInto (base : Record) (extra : Record) : Record :=
  extra.foldl (fun acc p => setKey acc p.1 p.2) base

/-- Rest-destructuring: the object without the listed keys. -/
def omitKeys (r : Record) (keys : List String) : Record :=
  r.filter (fun p => !(keys.contains p.1))

/-- JS truthiness of a value: null, false, 0 and the empty string are
falsy; arrays and objects are truthy. -/
def truthy : Value → Bool
  | .null => false
  | .bool b => b
  | .num n => n != 0
  | .str s => s != ""
  | .arr _ => true
  | .obj _ => true

/-- Truthiness of a possibly-absent value: undefined is falsy. -/
def truthyOpt : Option Value → Bool
  | none => false
  | some v => truthy v

/-- JS property-key coercion, String(v). Exact on the primitive values;
the protocol only ever indexes the pending table with uuid strings, so
the array and object cases (whose JS form stringifies recursively) are
approximated by a fixed tag and are never exercised. -/
def Value.toKey : Value → String
  | .str s => s
  | .num n => toString n
  | .bool true => "true"
  | .bool false => "false"
  | .null => "null"
  | .arr _ => "Array"
  | .obj _ => "Object"

/-- A node of the runtime state tree the peer reports: a source descriptor
plus an optional list of child nodes, matching the structural type
(source plus optional elements) used throughout the Renderer. -/
inductive ElementState : Type where
  | mk (source : Record) (elements : Option (List ElementState)) : ElementState

/-- Any list has positive size, used for the termination measures of the
mutual tree recursions below. -/
theorem list_sizeOf_pos {α : Type} [SizeOf α] (l : List α) : 0 < sizeOf l := by
  cases l <;> simp_arith

/-- The source descriptor of a state node. -/
def ElementState.source : ElementState → Record
  | .mk s _ => s

/-- The child nodes of a state node, undefined when it has none. -/
def ElementState.elements : ElementState → Option (List ElementState)
  | .mk _ e => e

mutual

/-- Renderer.getSource: rebuilds a source document from a state tree.
Absent state gives the empty object; a node without children returns its
source descriptor; a node with children returns the descriptor with its
elements field replaced by the recursively converted children. -/
def getSource : Option ElementState → Record
  | none => []
  | some (.mk src none) => src
  | some (.mk src (some els)) =>
    setKey src "elements" (.arr (getSourceChildren els))
termination_by o => sizeOf o
decreasing_by
  all_goals simp_wf
  all_goals omega

/-- The mapped recursive conversion of a list of child nodes. -/
def getSourceChildren : List ElementState → List Value
  | [] => []
  | e :: es => .obj (getSource (some e)) :: getSourceChildren es
termination_by l => sizeOf l
decreasing_by
  all_goals simp_wf
  all_goals (try have h := list_sizeOf_pos es)
  all_goals omega

end

mutual

/-- Renderer.getElements: collects the state nodes whose source has a
truthy type field, the node itself first, then the nodes collected from
each child in order; absent state gives the empty list. -/
def getElements : Option ElementState → List ElementState
  | none => []
  | some (.mk src els) =>
    (if truthyOpt (lookupKey src "type") then [ElementState.mk src els] else []) ++
      (match els with
        | some l => getElementsChildren l
        | none => [])
termination_by o => sizeOf o
decreasing_by
  all_goals simp_wf
  all_goals omega

/-- The concatenated collection over a list of child nodes. -/
def getElementsChildren : List ElementState → List ElementState
  | [] => []
  | e :: es => getElements (some e) ++ getElementsChildren es
termination_by l => sizeOf l
decreasing_by
  all_goals simp_wf
  all_goals (try have h := list_sizeOf_pos es)
  all_goals omega

end

mutual

/-- Renderer.findElement: when the state and its elements list are
present, walks the children in order, testing each child and, when the
child itself has an elements list, recursing into it before moving on;
the node passed in is never itself tested. -/
def findElement (p : ElementState → Bool) : Option ElementState → Option ElementState
  | none => none
  | some (.mk _ none) => none
  | some (.mk _ (some els)) => findInList p els
termination_by o => sizeOf o
decreasing_by
  all_goals simp_wf
  all_goals omega

/-- The loop body of findElement over the children list. -/
def findInList (p : ElementState → Bool) : List ElementState → Option ElementState
  | [] => none
  | ElementState.mk src els :: es =>
    if p (.mk src els) then some (.mk src els)
    else if els.isSome then
      match findElement p (some (.mk src els)) with
      | some found => some found
      | none => findInList p es
    else findInList p es
termination_by l => sizeOf l
decreasing_by
  all_goals simp_wf
  all_goals (try have h := list_sizeOf_pos es)
  all_goals omega

end

mutual

/-- Depth-first pre-order enumeration of a state tree: the node, then the
pre-order of each child in turn. Used to state the traversal claims. -/
def preorder : ElementState → List ElementState
  | .mk src none => [ElementState.mk src none]
  | .mk src (some els) => ElementState.mk src (some els) :: preorderList els
termination_by e => sizeOf e
decreasing_by
  all_goals simp_wf
  all_goals omega

/-- Pre-order enumeration of a forest, left to right. -/
def preorderList : List ElementState → List ElementState
  | [] => []
  | e :: es => preorder e ++ preorderList es
termination_by l => sizeOf l
decreasing_by
  all_goals simp_wf
  all_goals (try have h := list_sizeOf_pos es)
  all_goals omega

end

/-- The strict descendants of a node in depth-first pre-order: the
pre-order forest of its children, empty when it has no elements list. -/
def strictDescendants : ElementState → List ElementState
  | .mk _ none => []
  | .mk _ (some els) => preorderList els

/-- Strict descendants of a possibly-absent node. -/
def descendantsOpt : Option ElementState → List ElementState
  | none => []
  | some e => strictDescendants e

/-- Whether a state node counts as a renderable element: its source has a
truthy type field. -/
def hasType (e : ElementState) : Bool :=
  truthyOpt (lookupKey e.source "type")

/-! ## The Renderer dispatcher

State-machine embedding of the Renderer class: the pending-promise table
is the list of its keys together with a settlement log, since a pending
promise is identified by its correlation id and is observable only
through the one settlement it eventually receives. Observer callbacks
are modelled by presence flags plus an emitted call list. -/

/-- How a pending promise is settled: resolve receives the reply fields
left after destructuring, reject receives the error value the thrown
Error wraps. -/
inductive Outcome : Type where
  | resolved (args : Record) : Outcome
  | rejected (error : Value) : Outcome

/-- Which observer callback fields are assigned on the instance. -/
structure Observers where
  onReady : Bool
  onLoad : Bool
  onLoadComplete : Bool
  onPlay : Bool
  onPause : Bool
  onError : Bool
  onTimeChange : Bool
  onActiveElementsChange : Bool
  onStateChange : Bool
deriving DecidableEq

/-- No observer callback assigned. -/
def Observers.none : Observers :=
  ⟨false, false, false, false, false, false, false, false, false⟩

/-- An invocation of an observer callback, with the argument the handler
passes beyond the renderer itself. -/
inductive ObserverCall : Type where
  | ready : ObserverCall
  | load : ObserverCall
  | loadComplete : ObserverCall
  | play : ObserverCall
  | pause : ObserverCall
  | error (e : Option Value) : ObserverCall
  | timeChange (time : Option Value) : ObserverCall
  | activeElementsChange (elementIds : Option Value) : ObserverCall
  | stateChange (state : Option Value) : ObserverCall

/-- The observable state of a Renderer instance: the cached state tree,
the keys of the pending-promise table in insertion order, the log of
settlements, the message-listener and iframe attachment, and the log of
payloads posted to the peer. -/
structure Renderer : Type where
  observers : Observers
  state : Option Value
  pending : List String
  settled : List (String × Outcome)
  listenerAttached : Bool
  iframeAttached : Bool
  posted : List Record

/-- A Renderer as the constructor leaves it: listener added, iframe
appended, empty pending table, no cached state. -/
def Renderer.init (obs : Observers) : Renderer :=
  { observers := obs
    state := Option.none
    pending := []
    settled := []
    listenerAttached := true
    iframeAttached := true
    posted := [] }

/-- Renderer.dispose: removes the window message listener and detaches
the iframe. It touches nothing else; in particular the pending table and
the settlement log are left as they are. -/
def Renderer.dispose (r : Renderer) : Renderer :=
  { r with listenerAttached := false, iframeAttached := false }

/-- Renderer.sendCommand with the fresh uuid passed explicitly: posts
(id, ...message) to the iframe (the JSON round-trip clone is the
identity on Value) and registers the id in the pending table; assigning
an already-present key would replace that entry in place. Posting needs
the iframe content window, gone once the iframe is detached. -/
def Renderer.sendCommand (r : Renderer) (id : String) (message : Record) : Renderer :=
  let payload := spreadInto [("id", Value.str id)] message
  { r with
    posted := if r.iframeAttached then r.posted ++ [payload] else r.posted
    pending := if r.pending.contains id then r.pending else r.pending ++ [id] }

/-- The command record Renderer.play sends. -/
def playCommand : Record := [("message", Value.str "play")]

/-- The correlation key a delivered payload addresses: the destructured
id field when the payload is an object and the id is truthy, after the
property-key coercion of the table lookup. -/
def replyId : Value → Option String
  | .obj fields =>
    let id := lookupKey fields "id"
    if truthyOpt id then some ((id.getD .null).toKey) else Option.none
  | _ => Option.none

/-- The settlement a correlated reply produces: a truthy error field
rejects with that error, otherwise the remaining fields resolve the
promise. -/
def replyOutcome : Value → Outcome
  | .obj fields =>
    let error := lookupKey fields "error"
    if truthyOpt error then .rejected (error.getD .null)
    else .resolved (omitKeys fields ["id", "message", "error"])
  | _ => .resolved []

/-- Renderer.handleMessage on a delivered payload: non-objects are
discarded; a truthy id settles the matching pending entry, if any, and
removes it; otherwise the message field is switched over the fixed event
names, where only onStateChange writes the cached state (and does so
whether or not an observer is registered). The error observer receives
args.error, which is always undefined because the destructuring pulled
the error field out of args. -/
def Renderer.handleMessage (r : Renderer) (data : Value) : Renderer × List ObserverCall :=
  match data with
  | .obj fields =>
    let id := lookupKey fields "id"
    let message := lookupKey fields "message"
    let args := omitKeys fields ["id", "message", "error"]
    if truthyOpt id then
      let key := (id.getD .null).toKey
      if r.pending.contains key then
        ({ r with
            pending := r.pending.filter (fun k => k != key)
            settled := r.settled ++ [(key, replyOutcome (.obj fields))] }, [])
      else (r, [])
    else
      match message with
      | some (.str s) =>
        if s = "onReady" then (r, if r.observers.onReady then [.ready] else [])
        else if s = "onLoad" then (r, if r.observers.onLoad then [.load] else [])
        else if s = "onLoadComplete" then
          (r, if r.observers.onLoadComplete then [.loadComplete] else [])
        else if s = "onPlay" then (r, if r.observers.onPlay then [.play] else [])
        else if s = "onPause" then (r, if r.observers.onPause then [.pause] else [])
        else if s = "onError" then
          (r, if r.observers.onError then [.error (lookupKey args "error")] else [])
        else if s = "onTimeChange" then
          (r, if r.observers.onTimeChange then [.timeChange (lookupKey args "time")] else [])
        else if s = "onActiveElementsChange" then
          (r, if r.observers.onActiveElementsChange then
                [.activeElementsChange (lookupKey args "elementIds")] else [])
        else if s = "onStateChange" then
          ({ r with state := lookupKey args "state" },
            if r.observers.onStateChange then [.stateChange (lookupKey args "state")] else [])
        else (r, [])
      | _ => (r, [])
  | _ => (r, [])

/-- The switch cases of the event dispatch. -/
def eventNames : List String :=
  ["onReady", "onLoad", "onLoadComplete", "onPlay", "onPause", "onError",
   "onTimeChange", "onActiveElementsChange", "onStateChange"]

/-- Whether the observer slot for the given event name is assigned. -/
def observerRegistered (o : Observers) : String → Bool
  | "onReady" => o.onReady
  | "onLoad" => o.onLoad
  | "onLoadComplete" => o.onLoadComplete
  | "onPlay" => o.onPlay
  | "onPause" => o.onPause
  | "onError" => o.onError
  | "onTimeChange" => o.onTimeChange
  | "onActiveElementsChange" => o.onActiveElementsChange
  | "onStateChange" => o.onStateChange
  | _ => false

/-- Issuing a batch of commands in order, each with its generated id. -/
def sendAll (r : Renderer) : List (String × Record) → Renderer
  | [] => r
  | (id, msg) :: rest => sendAll (r.sendCommand id msg) rest

/-- Delivering a batch of inbound payloads in arrival order. -/
def handleAll (r : Renderer) : List Value → Renderer
  | [] => r
  | d :: rest => handleAll (r.handleMessage d).1 rest

/-! ## The VideoCreatorStore -/

/-- The observable fields of a VideoCreatorStore instance. The renderer
field is kept as a presence flag, since the store only guards on it and
calls its pure tree methods; the state field holds the tree the
onStateChange handler cached. -/
structure VideoCreatorStore : Type where
  hasRenderer : Bool
  state : Option ElementState
  activeElementIds : List String
  time : Int
  isScrubbing : Bool
  isPlaying : Bool
  isLoading : Bool

/-- VideoCreatorStore.setTime: writes the cached playback time at once,
then forwards the seek to the renderer when one is attached (the second
component is the forwarded time, none when the optional chain on the
renderer short-circuits). -/
def VideoCreatorStore.setTime (s : VideoCreatorStore) (time : Int) :
    VideoCreatorStore × Option Int :=
  ({ s with time := time }, if s.hasRenderer then some time else Option.none)

/-- The onTimeChange handler installed by initializeVideoPlayer: applies
the delivered time to the cached time unless the user is scrubbing. -/
def VideoCreatorStore.onTimeChange (s : VideoCreatorStore) (time : Int) :
    VideoCreatorStore :=
  if s.isScrubbing then s else { s with time := time }

/-- JS strict equality between a property value (possibly undefined) and
the selection id (a string, or undefined when the selection is empty):
exact, since strings compare by value and undefined only equals
undefined under the triple-equals operator. -/
def strictEqId : Option Value → Option String → Bool
  | Option.none, Option.none => true
  | some (.str s), some t => s = t
  | _, _ => false

/-- VideoCreatorStore.getActiveElement as written: undefined without a
renderer or with an empty own selection; otherwise it reads the first id
from the module-level singleton videoCreator (the global argument), not
from the instance itself, and searches the own cached state for the
element whose source id strictly equals it. -/
def VideoCreatorStore.getActiveElement (global self : VideoCreatorStore) :
    Option ElementState :=
  if !self.hasRenderer || self.activeElementIds.isEmpty then Option.none
  else
    findElement
      (fun e => strictEqId (lookupKey e.source "id") global.activeElementIds.head?)
      self.state

/-- Modelled from the spec: the intended getActiveElement, reading the
first id from the own active-selection list of the instance instead of
the module-level singleton. -/
def VideoCreatorStore.getActiveElementIntended (self : VideoCreatorStore) :
    Option ElementState :=
  if !self.hasRenderer || self.activeElementIds.isEmpty then Option.none
  else
    findElement
      (fun e => strictEqId (lookupKey e.source "id") self.activeElementIds.head?)
      self.state

/-! ## Fixtures for witnesses and counterexamples -/

/-- A renderer with one call outstanding, as at disposal time. -/
def rendererWithPending : Renderer :=
  { observers := .none
    state := Option.none
    pending := ["a"]
    settled := []
    listenerAttached := true
    iframeAttached := true
    posted := [] }

/-- A root node whose descriptor has a type tag and that has no child
collection. -/
def soloRoot : ElementState := .mk [("type", Value.str "text")] Option.none

/-- The payload the play command posts from a fresh renderer. -/
def playPayload : Record :=
  (((Renderer.init .none).sendCommand "k1" playCommand).posted).headD []

/-- A reply addressed to the pending id a, carrying a result field. -/
def replyToA : Value := .obj [("id", Value.str "a"), ("x", Value.num 1)]

/-- Concurrently issued commands A, B, C. -/
def cmdA : String × Record := ("A", [("message", Value.str "play")])

/-- Second command of the concurrency scenario. -/
def cmdB : String × Record := ("B", [("message", Value.str "pause")])

/-- Third command of the concurrency scenario. -/
def cmdC : String × Record := ("C", [("message", Value.str "undo")])

/-- The reply correlated to command A. -/
def replyA : Value := .obj [("id", Value.str "A"), ("resA", Value.num 1)]

/-- The reply correlated to command B. -/
def replyB : Value := .obj [("id", Value.str "B"), ("resB", Value.num 2)]

/-- The reply correlated to command C, a failure. -/
def replyC : Value := .obj [("id", Value.str "C"), ("error", Value.str "boom")]

/-- Every observer callback assigned. -/
def allObservers : Observers :=
  ⟨true, true, true, true, true, true, true, true, true⟩

/-- A state-change event payload delivering an empty state tree. -/
def stateChangeEvent : Record :=
  [("message", Value.str "onStateChange"), ("state", Value.obj [])]

/-- A store that is not scrubbing and holds playback time zero. -/
def plainStore : VideoCreatorStore :=
  { hasRenderer := true
    state := Option.none
    activeElementIds := []
    time := 0
    isScrubbing := false
    isPlaying := false
    isLoading := true }

/-- An element with source id x and no children. -/
def elemX : ElementState := .mk [("id", Value.str "x")] Option.none

/-- An element with source id y and no children. -/
def elemY : ElementState := .mk [("id", Value.str "y")] Option.none

/-- A document state tree whose children are elemX and elemY. -/
def stateXY : ElementState := .mk [] (some [elemX, elemY])

/-- A second store instance: own selection x, cached state holding both
elements. -/
def storeSelf : VideoCreatorStore :=
  { hasRenderer := true
    state := some stateXY
    activeElementIds := ["x"]
    time := 0
    isScrubbing := false
    isPlaying := false
    isLoading := false }

/-- The module-level singleton, whose selection is y. -/
def storeGlobal : VideoCreatorStore :=
  { hasRenderer := true
    state := Option.none
    activeElementIds := ["y"]
    time := 0
    isScrubbing := false
    isPlaying := false
    isLoading := false }

/-! ## Helper lemmas -/

/-- Induction over the element tree: to prove a property of every node
it is enough to prove it of a node from the property of the members of
its child list. -/
theorem ElementState.inductionOn {P : ElementState → Prop}
    (step : ∀ src els, (∀ l, els = some l → ∀ e ∈ l, P e) → P (.mk src els)) :
    ∀ e, P e := by
  suffices h : ∀ n (e : ElementState), sizeOf e ≤ n → P e by
    intro e; exact h (sizeOf e) e le_rfl
  intro n
  induction n with
  | zero =>
    intro e h
    cases e with
    | mk src els => simp_arith at h
  | succ n ih =>
    intro e h
    cases e with
    | mk src els =>
      apply step
      intro l hl e' he'
      apply ih
      subst hl
      have hm := List.sizeOf_lt_of_mem he'
      simp_arith at h
      omega

/-- Converting children one by one is mapping the conversion. -/
theorem getSourceChildren_eq_map (l : List ElementState) :
    getSourceChildren l = l.map (fun e => Value.obj (getSource (some e))) := by
  induction l with
  | nil => simp [getSourceChildren]
  | cons e es ih => simp [getSourceChildren, ih]

/-- Looking up the key just assigned reads the assigned value. -/
theorem lookupKey_setKey_self (r : Record) (k : String) (v : Value) :
    lookupKey (setKey r k v) k = some v := by
  induction r with
  | nil => simp [setKey, lookupKey]
  | cons p rest ih =>
    by_cases h : p.1 = k <;> simp [setKey, lookupKey, h, ih]

/-- Assignment leaves every other key unchanged. -/
theorem lookupKey_setKey_other (r : Record) (k k' : String) (v : Value) (h : k' ≠ k) :
    lookupKey (setKey r k v) k' = lookupKey r k' := by
  induction r with
  | nil => simp [setKey, lookupKey, Ne.symm h]
  | cons p rest ih =>
    by_cases hp : p.1 = k
    · subst hp
      simp [setKey, lookupKey, Ne.symm h]
    · by_cases hp' : p.1 = k' <;> simp [setKey, lookupKey, hp, hp', h, ih]

/-- Assignment keeps the key sequence when the key is present and
appends it otherwise. -/
theorem keys_setKey (r : Record) (k : String) (v : Value) :
    (setKey r k v).map Prod.fst =
      (if hasKey r k then r.map Prod.fst else r.map Prod.fst ++ [k]) := by
  induction r with
  | nil => simp [setKey, hasKey, lookupKey]
  | cons p rest ih =>
    by_cases h : p.1 = k
    · simp [setKey, hasKey, lookupKey, h]
    · by_cases hc : hasKey rest k = true <;>
        simp [setKey, hasKey, lookupKey, h, ih, hc] <;>
        simp [hasKey] at hc <;> simp [hc]

/-- Collecting over a forest is filtering its pre-order enumeration,
assuming the member equation on each tree of the forest. -/
theorem getElementsChildren_eq (l : List ElementState)
    (h : ∀ e ∈ l, getElements (some e) = (preorder e).filter hasType) :
    getElementsChildren l = (preorderList l).filter hasType := by
  induction l with
  | nil => simp [getElementsChildren, preorderList]
  | cons e es ih =>
    have he := h e (by simp)
    have hes := ih (fun e' he' => h e' (by simp [he']))
    simp [getElementsChildren, preorderList, List.filter_append, he, hes]

/-- getElements on a present tree is the typed-node filter of the
depth-first pre-order enumeration. -/
theorem getElements_eq (st : ElementState) :
    getElements (some st) = (preorder st).filter hasType := by
  induction st using ElementState.inductionOn with
  | step src els ih =>
    cases els with
    | none =>
      simp only [getElements, preorder, List.filter]
      cases hc : truthyOpt (lookupKey src "type") <;>
        simp [hasType, ElementState.source, hc]
    | some l =>
      have hch := getElementsChildren_eq l (ih l rfl)
      simp only [getElements, preorder, hch, List.filter]
      cases hc : truthyOpt (lookupKey src "type") <;>
        simp [hasType, ElementState.source, hc]

/-- Searching a forest is find-first over its pre-order enumeration,
assuming the member equation on each tree of the forest. -/
theorem findInList_eq (p : ElementState → Bool) (l : List ElementState)
    (h : ∀ e ∈ l, findElement p (some e) = (strictDescendants e).find? p) :
    findInList p l = (preorderList l).find? p := by
  induction l with
  | nil => simp [findInList, preorderList]
  | cons e es ih =>
    have hes := ih (fun e' he' => h e' (by simp [he']))
    cases e with
    | mk src els =>
      have he := h (.mk src els) (by simp)
      cases hp : p (.mk src els) with
      | true =>
        cases els <;>
          simp [findInList, preorder, preorderList, hp, List.find?_cons,
            List.find?_append]
      | false =>
        cases els with
        | none =>
          simp [findInList, preorder, preorderList, hp, hes, List.find?_cons,
            List.find?_append]
        | some l' =>
          have he' : findInList p l' = (preorderList l').find? p := by
            simpa [findElement, strictDescendants] using he
          simp only [findInList, hp, Bool.false_eq_true, if_false,
            Option.isSome_some, if_true, findElement, he', hes]
          cases hf : (preorderList l').find? p <;>
            simp [preorder, preorderList, List.find?_cons, List.find?_append,
              hp, hf, hes]

/-- findElement on a present node is find-first over the strict
descendants of that node in pre-order; the node itself is not searched. -/
theorem findElement_eq (p : ElementState → Bool) (st : ElementState) :
    findElement p (some st) = (strictDescendants st).find? p := by
  induction st using ElementState.inductionOn with
  | step src els ih =>
    cases els with
    | none => simp [findElement, strictDescendants]
    | some l =>
      have := findInList_eq p l (ih l rfl)
      simpa [findElement, strictDescendants] using this

/-- Assigning an absent key appends the field. -/
theorem setKey_absent (r : Record) (k : String) (v : Value)
    (h : hasKey r k = false) : setKey r k v = r ++ [(k, v)] := by
  induction r with
  | nil => simp [setKey]
  | cons p rest ih =>
    simp [hasKey, lookupKey] at h
    by_cases hp : p.1 = k
    · simp [hp] at h
    · simp [hp] at h
      simp [setKey, hp, ih (by simp [hasKey, h])]

/-- A key is present exactly when it occurs in the key sequence. -/
theorem hasKey_iff_mem (r : Record) (k : String) :
    hasKey r k = true ↔ k ∈ r.map Prod.fst := by
  induction r with
  | nil => simp [hasKey, lookupKey]
  | cons p rest ih =>
    by_cases hp : p.1 = k
    · simp [hasKey, lookupKey, hp]
    · have hp' : ¬ k = p.1 := fun hh => hp hh.symm
      simp only [hasKey, lookupKey, List.map_cons, List.mem_cons, if_neg hp]
      rw [← hasKey]
      simp [hp', ih]

/-- Spreading fields whose keys are fresh for the base and mutually
distinct appends them in order. -/
theorem spreadInto_of_fresh (extra : Record) : ∀ base : Record,
    (∀ k ∈ extra.map Prod.fst, hasKey base k = false) →
    (extra.map Prod.fst).Nodup →
    spreadInto base extra = base ++ extra := by
  induction extra with
  | nil => intro base _ _; simp [spreadInto]
  | cons p rest ih =>
    intro base hfresh hnd
    have hnd2 : ¬ p.1 ∈ rest.map Prod.fst ∧ (rest.map Prod.fst).Nodup := by
      simpa using hnd
    have hstep : setKey base p.1 p.2 = base ++ [p] := by
      rw [setKey_absent base p.1 p.2 (hfresh p.1 (by simp))]
    have hfresh' : ∀ k ∈ rest.map Prod.fst, hasKey (base ++ [p]) k = false := by
      intro k hk
      have hk1 : ¬ k = p.1 := fun hh => hnd2.1 (hh ▸ hk)
      have hk2 : ¬ k ∈ base.map Prod.fst := by
        intro hm
        have h2 := (hasKey_iff_mem base k).mpr hm
        rw [hfresh k (by simp [hk])] at h2
        exact Bool.noConfusion h2
      rw [Bool.eq_false_iff]
      intro htrue
      have hmem := (hasKey_iff_mem _ k).mp htrue
      rw [List.map_append] at hmem
      rcases List.mem_append.mp hmem with h1 | h1
      · exact hk2 h1
      · simp at h1
        exact hk1 h1
    calc spreadInto base (p :: rest)
        = spreadInto (setKey base p.1 p.2) rest := rfl
      _ = setKey base p.1 p.2 ++ rest := by
          rw [hstep]
          exact ih _ hfresh' hnd2.2
      _ = base ++ p :: rest := by rw [hstep]; simp

/-- Filtering a key out leaves a list that no longer contains it. -/
theorem contains_filter_ne (l : List String) (k : String) :
    (l.filter (fun x => x != k)).contains k = false := by
  induction l with
  | nil => simp
  | cons a l ih =>
    by_cases h : a = k
    · simp_all [List.filter_cons]
    · simp_all [List.filter_cons, Ne.symm h]

/-- Filtering a different key out keeps a contained element. -/
theorem contains_filter_ne_of (l : List String) (k k' : String)
    (h1 : l.contains k' = true) (h2 : ¬ k' = k) :
    (l.filter (fun x => x != k)).contains k' = true := by
  have hm : k' ∈ l := by simpa using h1
  have : k' ∈ l.filter (fun x => x != k) := by
    rw [List.mem_filter]
    exact ⟨hm, by simpa using h2⟩
  simpa using this

/-- A correlated reply whose id is a live pending key settles exactly
that entry with the outcome of the reply, removes the key from the
pending table, leaves everything else as it was and calls no observer. -/
theorem handleMessage_reply_live (r : Renderer) (d : Value) (k : String)
    (hk : replyId d = some k) (hmem : r.pending.contains k = true) :
    r.handleMessage d =
      ({ r with
          pending := r.pending.filter (fun x => x != k)
          settled := r.settled ++ [(k, replyOutcome d)] }, []) := by
  cases d with
  | null => simp [replyId] at hk
  | bool b => simp [replyId] at hk
  | num n => simp [replyId] at hk
  | str s => simp [replyId] at hk
  | arr es => simp [replyId] at hk
  | obj fields =>
    simp only [replyId] at hk
    by_cases ht : truthyOpt (lookupKey fields "id") = true
    · rw [if_pos ht] at hk
      have hk2 := Option.some.inj hk
      have hmemm : k ∈ r.pending := by simpa using hmem
      simp [Renderer.handleMessage, ht, hk2, hmemm]
    · rw [if_neg ht] at hk
      exact Option.noConfusion hk

/-- A correlated reply whose id matches no live pending entry is a
complete no-op: state unchanged, nothing settled, no observer called. -/
theorem handleMessage_reply_dead (r : Renderer) (d : Value) (k : String)
    (hk : replyId d = some k) (hmem : r.pending.contains k = false) :
    r.handleMessage d = (r, []) := by
  cases d with
  | null => simp [replyId] at hk
  | bool b => simp [replyId] at hk
  | num n => simp [replyId] at hk
  | str s => simp [replyId] at hk
  | arr es => simp [replyId] at hk
  | obj fields =>
    simp only [replyId] at hk
    by_cases ht : truthyOpt (lookupKey fields "id") = true
    · rw [if_pos ht] at hk
      have hk2 := Option.some.inj hk
      have hmemm : ¬ k ∈ r.pending := by
        intro hm
        have h2 : r.pending.contains k = true := by simpa using hm
        rw [h2] at hmem
        exact Bool.noConfusion hmem
      simp [Renderer.handleMessage, ht, hk2, hmemm]
    · rw [if_neg ht] at hk
      exact Option.noConfusion hk

/-- Issuing commands never settles anything. -/
theorem sendAll_settled (cmds : List (String × Record)) : ∀ r : Renderer,
    (sendAll r cmds).settled = r.settled := by
  induction cmds with
  | nil => intro r; simp [sendAll]
  | cons c rest ih =>
    intro r
    obtain ⟨cid, cmsg⟩ := c
    simpa [sendAll, Renderer.sendCommand] using ih _

/-- Issuing commands with mutually distinct ids fresh for the table
appends the ids to the pending table in issue order. -/
theorem sendAll_pending (cmds : List (String × Record)) : ∀ r : Renderer,
    (∀ p ∈ cmds, ¬ p.1 ∈ r.pending) → (cmds.map Prod.fst).Nodup →
    (sendAll r cmds).pending = r.pending ++ cmds.map Prod.fst := by
  induction cmds with
  | nil => intro r _ _; simp [sendAll]
  | cons c rest ih =>
    intro r hfresh hnd
    obtain ⟨cid, cmsg⟩ := c
    have hc : ¬ cid ∈ r.pending := hfresh (cid, cmsg) (by simp)
    have hnd2 : ¬ cid ∈ rest.map Prod.fst ∧ (rest.map Prod.fst).Nodup := by
      simpa using hnd
    have hpend1 : (r.sendCommand cid cmsg).pending = r.pending ++ [cid] := by
      simp [Renderer.sendCommand, hc]
    have hfresh' : ∀ p ∈ rest, ¬ p.1 ∈ (r.sendCommand cid cmsg).pending := by
      intro p hp
      rw [hpend1]
      intro hm
      rcases List.mem_append.mp hm with h1 | h1
      · exact hfresh p (by simp [hp]) h1
      · have : p.1 = cid := by simpa using h1
        exact hnd2.1 (this ▸ List.mem_map_of_mem Prod.fst hp)
    calc (sendAll r ((cid, cmsg) :: rest)).pending
        = (sendAll (r.sendCommand cid cmsg) rest).pending := rfl
      _ = (r.sendCommand cid cmsg).pending ++ rest.map Prod.fst :=
          ih _ hfresh' hnd2.2
      _ = r.pending ++ (cid, cmsg).1 :: rest.map Prod.fst := by
          rw [hpend1]; simp

/-- Delivering correlated replies with mutually distinct live ids
appends one settlement per reply, in arrival order, each carrying the
id and outcome of its reply. -/
theorem handleAll_settles (replies : List Value) : ∀ r : Renderer,
    (∀ d ∈ replies, ∃ k, replyId d = some k ∧ r.pending.contains k = true) →
    (replies.filterMap replyId).Nodup →
    (handleAll r replies).settled
      = r.settled ++ replies.map (fun d => ((replyId d).getD "", replyOutcome d)) := by
  induction replies with
  | nil => intro r _ _; simp [handleAll]
  | cons d rest ih =>
    intro r hall hnd
    obtain ⟨k, hk, hmem⟩ := hall d (by simp)
    have hstep := handleMessage_reply_live r d k hk hmem
    have hfmh : (d :: rest).filterMap replyId = k :: rest.filterMap replyId := by
      simp [List.filterMap_cons, hk]
    rw [hfmh] at hnd
    have hnotin := (List.nodup_cons.mp hnd).1
    have hnd' := (List.nodup_cons.mp hnd).2
    have hall' : ∀ d' ∈ rest,
        ∃ k', replyId d' = some k' ∧
          (r.handleMessage d).1.pending.contains k' = true := by
      intro d' hd'
      obtain ⟨k', hk', hmem'⟩ := hall d' (by simp [hd'])
      refine ⟨k', hk', ?_⟩
      have hkne : ¬ k' = k :=
        fun hh => hnotin (hh ▸ List.mem_filterMap.mpr ⟨d', hd', hk'⟩)
      rw [hstep]
      exact contains_filter_ne_of r.pending k k' hmem' hkne
    calc (handleAll r (d :: rest)).settled
        = (handleAll (r.handleMessage d).1 rest).settled := rfl
      _ = (r.handleMessage d).1.settled
            ++ rest.map (fun d' => ((replyId d').getD "", replyOutcome d')) :=
          ih _ hall' hnd'
      _ = r.settled
            ++ (d :: rest).map (fun d' => ((replyId d').getD "", replyOutcome d')) := by
          rw [hstep]
          simp [hk]

/-- Among replies with mutually distinct ids, the settlement entries
keyed by the id of one of them consist exactly of that reply and its
outcome. -/
theorem settled_filter_single (replies : List Value) : ∀ (k : String) (d : Value),
    (∀ d' ∈ replies, (replyId d').isSome = true) →
    (replies.filterMap replyId).Nodup →
    d ∈ replies → replyId d = some k →
    (replies.map (fun d' => ((replyId d').getD "", replyOutcome d'))).filter
        (fun q => q.1 == k)
      = [(k, replyOutcome d)] := by
  induction replies with
  | nil => intro k d _ _ hd _; cases hd
  | cons d0 rest ih =>
    intro k d hall hnd hd hk
    obtain ⟨k0, hk0⟩ := Option.isSome_iff_exists.mp (hall d0 (by simp))
    have hfmh : (d0 :: rest).filterMap replyId = k0 :: rest.filterMap replyId := by
      simp [List.filterMap_cons, hk0]
    rw [hfmh] at hnd
    have hnotin := (List.nodup_cons.mp hnd).1
    have hnd' := (List.nodup_cons.mp hnd).2
    by_cases hkk : k0 = k
    · subst hkk
      have hdd : d = d0 := by
        rcases List.mem_cons.mp hd with h | h
        · exact h
        · exact absurd (List.mem_filterMap.mpr ⟨d, h, hk⟩) hnotin
      subst hdd
      have hrest : (rest.map (fun d' => ((replyId d').getD "", replyOutcome d'))).filter
          (fun q => q.1 == k0) = [] := by
        rw [List.filter_eq_nil_iff]
        intro q hq
        obtain ⟨d', hd', hq'⟩ := List.mem_map.mp hq
        obtain ⟨k', hk'⟩ := Option.isSome_iff_exists.mp (hall d' (by simp [hd']))
        have hq1 : q.1 = k' := by rw [← hq']; simp [hk']
        have hne : ¬ k' = k0 :=
          fun hh => hnotin (hh ▸ List.mem_filterMap.mpr ⟨d', hd', hk'⟩)
        simp [hq1, hne]
      rw [hk] at hk0
      have hk0' := Option.some.inj hk0
      simp [List.filter_cons, hk, hrest, hk0']
    · have hdr : d ∈ rest := by
        rcases List.mem_cons.mp hd with h | h
        · subst h
          rw [hk] at hk0
          exact absurd (Option.some.inj hk0).symm hkk
        · exact h
      have hres := ih k d (fun d' hd' => hall d' (by simp [hd'])) hnd' hdr hk
      simp [List.filter_cons, hk0, hkk, hres]

/-! ## Theorems -/

/-- C1 counterexample: a renderer with one pending call; after dispose
the entry is still pending and the settlement log records no rejection,
so it is false that every pending call is rejected exactly once and that
no pending entry is left unresolved. -/
theorem dispose_counterexample :
    ¬ (∀ k ∈ rendererWithPending.pending,
        ((rendererWithPending.dispose).settled.filter (fun p => p.1 == k)).length = 1 ∧
        k ∉ (rendererWithPending.dispose).pending) := by
  decide

/-- C1 as amended: dispose only removes the message listener and
detaches the iframe; the pending table and the settlement log are
unchanged, so calls outstanding at disposal stay pending and are never
rejected by dispose. -/
theorem dispose_does_not_settle (r : Renderer) :
    (r.dispose).pending = r.pending ∧ (r.dispose).settled = r.settled ∧
    (r.dispose).listenerAttached = false ∧ (r.dispose).iframeAttached = false :=
  ⟨rfl, rfl, rfl, rfl⟩

/-- C2: from any renderer, issue any number of commands with mutually
distinct fresh correlation ids, then deliver the correlated replies in
any arrival order (any list of replies whose ids are a permutation of
the command ids): the settlement log restricted to one command id holds
exactly one entry, carrying the outcome of the one reply bearing that
id, so each caller receives exactly the reply matching its own id. -/
theorem correlation_uniqueness (r0 : Renderer) (cmds : List (String × Record))
    (replies : List Value) (d : Value) (k : String)
    (hnd : (cmds.map Prod.fst).Nodup)
    (hfreshp : ∀ p ∈ cmds, ¬ p.1 ∈ r0.pending)
    (hfreshs : ∀ p ∈ cmds, ¬ p.1 ∈ r0.settled.map Prod.fst)
    (hwf : ∀ d' ∈ replies, (replyId d').isSome = true)
    (hperm : List.Perm (replies.filterMap replyId) (cmds.map Prod.fst))
    (hd : d ∈ replies) (hk : replyId d = some k) :
    ((handleAll (sendAll r0 cmds) replies).settled).filter (fun q => q.1 == k)
      = [(k, replyOutcome d)] := by
  have hpend := sendAll_pending cmds r0 hfreshp hnd
  have hsett := sendAll_settled cmds r0
  have hndr : (replies.filterMap replyId).Nodup := hperm.nodup_iff.mpr hnd
  have hall : ∀ d' ∈ replies,
      ∃ k', replyId d' = some k' ∧
        (sendAll r0 cmds).pending.contains k' = true := by
    intro d' hd'
    obtain ⟨k', hk'⟩ := Option.isSome_iff_exists.mp (hwf d' hd')
    refine ⟨k', hk', ?_⟩
    have hkmem : k' ∈ cmds.map Prod.fst :=
      hperm.mem_iff.mp (List.mem_filterMap.mpr ⟨d', hd', hk'⟩)
    rw [hpend]
    have : k' ∈ r0.pending ++ cmds.map Prod.fst :=
      List.mem_append.mpr (Or.inr hkmem)
    simpa using this
  rw [handleAll_settles replies (sendAll r0 cmds) hall hndr, hsett,
    List.filter_append]
  have hkmemc : k ∈ cmds.map Prod.fst :=
    hperm.mem_iff.mp (List.mem_filterMap.mpr ⟨d, hd, hk⟩)
  have h0 : r0.settled.filter (fun q => q.1 == k) = [] := by
    rw [List.filter_eq_nil_iff]
    intro q hq
    obtain ⟨p, hp, hpk⟩ := List.mem_map.mp hkmemc
    have hqk : ¬ q.1 = k := by
      intro hh
      exact hfreshs p hp (hpk ▸ hh ▸ List.mem_map_of_mem Prod.fst hq)
    simpa using hqk
  rw [h0]
  simpa using settled_filter_single replies k d hwf hndr hd hk

/-- C2 witness: commands A, B, C issued from a fresh renderer, replies
delivered in the order C, A, B; the caller of B receives exactly the
result of the reply with id B. -/
theorem correlation_uniqueness_witness :
    ((handleAll (sendAll (Renderer.init .none) [cmdA, cmdB, cmdC])
        [replyC, replyA, replyB]).settled).filter (fun q => q.1 == "B")
      = [("B", replyOutcome replyB)] :=
  correlation_uniqueness (Renderer.init .none) [cmdA, cmdB, cmdC]
    [replyC, replyA, replyB] replyB "B" (by decide) (by decide) (by decide)
    (by decide) (by decide) (by simp [replyA, replyB, replyC]) rfl

/-- C3: a correlated reply settles its live pending entry exactly once,
removing the entry, so a second delivery of the same reply is a
complete no-op, as is any reply whose id matches no live entry; no
settled entry is ever invoked twice and no error is raised. -/
theorem reply_at_most_once (r : Renderer) (d : Value) (k : String)
    (hk : replyId d = some k) :
    (r.pending.contains k = true →
        (r.handleMessage d).1.settled = r.settled ++ [(k, replyOutcome d)] ∧
        (r.handleMessage d).1.pending.contains k = false ∧
        (r.handleMessage d).1.handleMessage d = ((r.handleMessage d).1, [])) ∧
    (r.pending.contains k = false → r.handleMessage d = (r, [])) := by
  constructor
  · intro hmem
    have h1 := handleMessage_reply_live r d k hk hmem
    rw [h1]
    exact ⟨rfl, contains_filter_ne _ _,
      handleMessage_reply_dead _ d k hk (contains_filter_ne _ _)⟩
  · intro hmem
    exact handleMessage_reply_dead r d k hk hmem

/-- C3 witness: a renderer with pending entry a receiving the matching
reply, then the same reply again. -/
theorem reply_at_most_once_witness :
    (rendererWithPending.pending.contains "a" = true →
        (rendererWithPending.handleMessage replyToA).1.settled
          = rendererWithPending.settled ++ [("a", replyOutcome replyToA)] ∧
        (rendererWithPending.handleMessage replyToA).1.pending.contains "a" = false ∧
        (rendererWithPending.handleMessage replyToA).1.handleMessage replyToA
          = ((rendererWithPending.handleMessage replyToA).1, [])) ∧
    (rendererWithPending.pending.contains "a" = false →
        rendererWithPending.handleMessage replyToA = (rendererWithPending, [])) :=
  reply_at_most_once rendererWithPending replyToA "a" rfl

/-- C5: on an inbound payload without a truthy id, a state-change event
replaces the cached state tree with the delivered state (the very state
handed to the observer, cached whether or not an observer is
registered) and changes nothing else; every other recognized event
leaves the renderer untouched and at most notifies its registered
observer; an unrecognized event name changes nothing and notifies
nobody. -/
theorem event_dispatch_spec (r : Renderer) (fields : Record) (s : String)
    (hid : truthyOpt (lookupKey fields "id") = false)
    (hmsg : lookupKey fields "message" = some (Value.str s)) :
    (s = "onStateChange" →
        r.handleMessage (.obj fields)
          = ({ r with
                state := lookupKey (omitKeys fields ["id", "message", "error"]) "state" },
             if r.observers.onStateChange then
               [ObserverCall.stateChange
                 (lookupKey (omitKeys fields ["id", "message", "error"]) "state")]
             else [])) ∧
    (s ∈ eventNames → ¬ s = "onStateChange" →
        (r.handleMessage (.obj fields)).1 = r ∧
        (r.handleMessage (.obj fields)).2.length
          = (if observerRegistered r.observers s then 1 else 0)) ∧
    (¬ s ∈ eventNames → r.handleMessage (.obj fields) = (r, [])) := by
  refine ⟨?_, ?_, ?_⟩
  · intro hs
    subst hs
    simp [Renderer.handleMessage, hid, hmsg]
  · intro hmem hne
    simp only [eventNames, List.mem_cons, List.not_mem_nil, or_false] at hmem
    rcases hmem with rfl | rfl | rfl | rfl | rfl | rfl | rfl | rfl | rfl
    · cases ho : r.observers.onReady <;>
        simp [Renderer.handleMessage, hid, hmsg, observerRegistered, ho]
    · cases ho : r.observers.onLoad <;>
        simp [Renderer.handleMessage, hid, hmsg, observerRegistered, ho]
    · cases ho : r.observers.onLoadComplete <;>
        simp [Renderer.handleMessage, hid, hmsg, observerRegistered, ho]
    · cases ho : r.observers.onPlay <;>
        simp [Renderer.handleMessage, hid, hmsg, observerRegistered, ho]
    · cases ho : r.observers.onPause <;>
        simp [Renderer.handleMessage, hid, hmsg, observerRegistered, ho]
    · cases ho : r.observers.onError <;>
        simp [Renderer.handleMessage, hid, hmsg, observerRegistered, ho]
    · cases ho : r.observers.onTimeChange <;>
        simp [Renderer.handleMessage, hid, hmsg, observerRegistered, ho]
    · cases ho : r.observers.onActiveElementsChange <;>
        simp [Renderer.handleMessage, hid, hmsg, observerRegistered, ho]
    · exact absurd rfl hne
  · intro hmem
    simp only [eventNames, List.mem_cons, List.not_mem_nil, or_false, not_or] at hmem
    obtain ⟨h1, h2, h3, h4, h5, h6, h7, h8, h9⟩ := hmem
    simp [Renderer.handleMessage, hid, hmsg, h1, h2, h3, h4, h5, h6, h7, h8, h9]

/-- C5 witness: a renderer with all observers assigned receiving a
state-change event; the state is cached and the observer called with
that same state. -/
theorem event_dispatch_spec_witness :
    (Renderer.init allObservers).handleMessage (.obj stateChangeEvent)
      = ({ Renderer.init allObservers with
            state := lookupKey
              (omitKeys stateChangeEvent ["id", "message", "error"]) "state" },
         if (Renderer.init allObservers).observers.onStateChange then
           [ObserverCall.stateChange
             (lookupKey (omitKeys stateChangeEvent ["id", "message", "error"]) "state")]
         else []) :=
  (event_dispatch_spec (Renderer.init allObservers) stateChangeEvent
    "onStateChange" rfl rfl).1 rfl

/-- C4: getSource returns the empty document for absent state, the
source descriptor verbatim for a node without children, and for a node
with children the descriptor with exactly its elements field replaced by
the recursively converted children: the converted children sit under the
elements key, every other key reads unchanged, and the key sequence is
preserved, with elements appended only when the descriptor lacked it. -/
theorem getSource_spec (src : Record) (els : List ElementState) (k : String)
    (hk : k ≠ "elements") :
    getSource Option.none = [] ∧
    getSource (some (.mk src Option.none)) = src ∧
    lookupKey (getSource (some (.mk src (some els)))) "elements"
      = some (.arr (els.map (fun e => Value.obj (getSource (some e))))) ∧
    lookupKey (getSource (some (.mk src (some els)))) k = lookupKey src k ∧
    (getSource (some (.mk src (some els)))).map Prod.fst
      = (if hasKey src "elements" then src.map Prod.fst
         else src.map Prod.fst ++ ["elements"]) := by
  refine ⟨by simp [getSource], by simp [getSource], ?_, ?_, ?_⟩
  · simp [getSource, lookupKey_setKey_self, getSourceChildren_eq_map]
  · simp [getSource, lookupKey_setKey_other src "elements" k _ hk]
  · simp [getSource, keys_setKey]

/-- C4 witness at a concrete input: a one-field descriptor with one
child, looked up at its own key. -/
theorem getSource_spec_witness :
    getSource Option.none = [] ∧
    getSource (some (.mk [("a", Value.num 1)] Option.none)) = [("a", Value.num 1)] ∧
    lookupKey (getSource (some (.mk [("a", Value.num 1)] (some [soloRoot])))) "elements"
      = some (.arr ([soloRoot].map (fun e => Value.obj (getSource (some e))))) ∧
    lookupKey (getSource (some (.mk [("a", Value.num 1)] (some [soloRoot])))) "a"
      = lookupKey [("a", Value.num 1)] "a" ∧
    (getSource (some (.mk [("a", Value.num 1)] (some [soloRoot])))).map Prod.fst
      = (if hasKey [("a", Value.num 1)] "elements" then [("a", Value.num 1)].map Prod.fst
         else [("a", Value.num 1)].map Prod.fst ++ ["elements"]) :=
  getSource_spec [("a", Value.num 1)] [soloRoot] "a" (by decide)

/-- C6: getElements yields exactly the state nodes whose source has a
type tag, as the typed-node filter of the depth-first pre-order
enumeration of the tree (so untyped container nodes contribute nothing
themselves yet their descendants are still visited), and an absent state
yields the empty sequence. -/
theorem getElements_spec (st : ElementState) :
    getElements Option.none = [] ∧
    getElements (some st) = (preorder st).filter hasType :=
  ⟨by simp [getElements], getElements_eq st⟩

/-- C7 counterexample: a root node whose descriptor is typed and that
trivially satisfies the always-true predicate, yet findElement reports
not-found: the search does not include the root node it is given. -/
theorem findElement_counterexample :
    findElement (fun _ => true) (some soloRoot) = Option.none ∧
    ¬ findElement (fun _ => true) (some soloRoot) = some soloRoot := by
  have h : findElement (fun _ => true) (some soloRoot) = Option.none := by
    simp [findElement, soloRoot]
  exact ⟨h, by simp [h]⟩

/-- C7 as amended: findElement performs a depth-first pre-order search
over the strict descendants of the node it is given (the given node
itself is never tested), recursing into the children of a node before
moving to the next sibling, and returns the first matching descendant or
none when no descendant matches or the state is absent. -/
theorem findElement_descendants_only (p : ElementState → Bool)
    (o : Option ElementState) :
    findElement p o = (descendantsOpt o).find? p := by
  cases o with
  | none => simp [findElement, descendantsOpt]
  | some st => simpa [descendantsOpt] using findElement_eq p st

/-- C10: evaluated at the failing input, getActiveElement on a store
instance whose own selection is x resolves the selection from the
module-level singleton, whose selection is y, and hence returns the
element with id y, while the intended own-selection lookup returns the
element with id x. -/
theorem getActiveElement_global_read :
    VideoCreatorStore.getActiveElement storeGlobal storeSelf = some elemY ∧
    VideoCreatorStore.getActiveElementIntended storeSelf = some elemX ∧
    storeSelf.activeElementIds.head? = some "x" ∧
    storeGlobal.activeElementIds.head? = some "y" ∧
    ¬ elemY = elemX := by
  refine ⟨?_, ?_, rfl, rfl, by simp [elemX, elemY]⟩
  · simp [VideoCreatorStore.getActiveElement, storeGlobal, storeSelf, stateXY,
      findElement, findInList, elemX, elemY, strictEqId, lookupKey,
      ElementState.elements]
  · simp [VideoCreatorStore.getActiveElementIntended, storeSelf, stateXY,
      findElement, findInList, elemX, elemY, strictEqId, lookupKey,
      ElementState.elements]

/-- C8 counterexample: the payload the play command posts carries the
command name under the key message, not under the key name, so the
claimed (id, name, ...params) shape with a name key is false of it. -/
theorem play_payload_counterexample :
    ¬ lookupKey playPayload "name" = some (Value.str "play") ∧
    lookupKey playPayload "name" = Option.none ∧
    lookupKey playPayload "message" = some (Value.str "play") ∧
    lookupKey playPayload "id" = some (Value.str "k1") := by
  refine ⟨?_, rfl, rfl, rfl⟩
  intro h
  rw [show lookupKey playPayload "name" = Option.none from rfl] at h
  exact Option.noConfusion h

/-- C8 as amended: every outbound command is posted as the structured
payload (id, message, ...params): the freshly generated correlation id
sits first under the key id, the command name follows under the key
message, and the command parameters follow in order; the id is also
registered in the pending table. -/
theorem sendCommand_payload_shape (r : Renderer) (id name : String) (params : Record)
    (hframe : r.iframeAttached = true)
    (hid : hasKey (("message", Value.str name) :: params) "id" = false)
    (hnd : ((("message", Value.str name) :: params).map Prod.fst).Nodup)
    (hpend : r.pending.contains id = false) :
    (r.sendCommand id (("message", Value.str name) :: params)).posted
      = r.posted ++ [("id", Value.str id) :: ("message", Value.str name) :: params] ∧
    (r.sendCommand id (("message", Value.str name) :: params)).pending
      = r.pending ++ [id] ∧
    lookupKey (("id", Value.str id) :: ("message", Value.str name) :: params) "id"
      = some (Value.str id) ∧
    lookupKey (("id", Value.str id) :: ("message", Value.str name) :: params) "message"
      = some (Value.str name) := by
  have hspread : spreadInto [("id", Value.str id)] (("message", Value.str name) :: params)
      = ("id", Value.str id) :: ("message", Value.str name) :: params := by
    have := spreadInto_of_fresh (("message", Value.str name) :: params)
      [("id", Value.str id)] ?_ hnd
    · simpa using this
    · intro k hk
      rw [Bool.eq_false_iff]
      intro htrue
      have hk' : k = "id" := by
        have := (hasKey_iff_mem [("id", Value.str id)] k).mp htrue
        simpa using this
      subst hk'
      have := (hasKey_iff_mem (("message", Value.str name) :: params) "id").mpr hk
      rw [hid] at this
      exact Bool.noConfusion this
  refine ⟨?_, ?_, by simp [lookupKey], by simp [lookupKey]⟩
  · simp [Renderer.sendCommand, hframe, hspread]
  · have hmem : id ∉ r.pending := by
      intro hm
      have h2 : r.pending.contains id = true := by simpa using hm
      rw [h2] at hpend
      exact Bool.noConfusion hpend
    simp [Renderer.sendCommand, hmem]

/-- C8 witness: the play command from a fresh renderer with generated
id k1. -/
theorem sendCommand_payload_shape_witness :
    ((Renderer.init .none).sendCommand "k1" (("message", Value.str "play") :: [])).posted
      = (Renderer.init .none).posted
        ++ [("id", Value.str "k1") :: ("message", Value.str "play") :: []] ∧
    ((Renderer.init .none).sendCommand "k1" (("message", Value.str "play") :: [])).pending
      = (Renderer.init .none).pending ++ ["k1"] ∧
    lookupKey (("id", Value.str "k1") :: ("message", Value.str "play") :: []) "id"
      = some (Value.str "k1") ∧
    lookupKey (("id", Value.str "k1") :: ("message", Value.str "play") :: []) "message"
      = some (Value.str "play") :=
  sendCommand_payload_shape (Renderer.init .none) "k1" "play" [] rfl rfl
    (by simp) rfl

/-- C9 counterexample: on a store at time zero, calling setTime 5 itself
changes the cached playback time, contradicting the claim that only a
time-change event updates it. -/
theorem setTime_counterexample :
    ¬ ((plainStore.setTime 5).1.time = plainStore.time) := by
  decide

/-- C9 as amended: setTime writes the requested time to the cached
playback time at once (changing nothing else) and forwards the seek when
a renderer is attached; a time-change event updates the cached time
unless the caller is scrubbing, in which case it leaves the store
untouched. -/
theorem setTime_spec (s : VideoCreatorStore) (t : Int) :
    (s.setTime t).1 = { s with time := t } ∧
    (s.setTime t).2 = (if s.hasRenderer then some t else Option.none) ∧
    (s.isScrubbing = true → s.onTimeChange t = s) ∧
    (s.isScrubbing = false → s.onTimeChange t = { s with time := t }) := by
  refine ⟨rfl, rfl, ?_, ?_⟩ <;> intro h <;> simp [VideoCreatorStore.onTimeChange, h]

end VideoEditor
